import Mathlib

/-!
Verification of the session-repair script (scripts/repair_sessions.py).

Shallow embedding conventions:

* Python strings are modelled as `List Nat` of character code points; a
  literal such as `strLit "cwd"` is the code-point list of the Lean string.
  `str.lower()` is modelled per character on the ASCII range (`lowerN`),
  which is how the script's inputs (file-system paths, record field names)
  behave.
* JSON values are modelled by the inductive `JVal`.  Arrays and objects are
  encoded as constructor chains (`arrCons`/`arrNil`, `objCons`/`objNil`) so
  that all recursion over `JVal` is structural and every function reduces in
  the kernel.  A decoded top-level record (a Python dict produced by
  `json.loads`) is an association list `Obj`; the helpers `JVal.ofFields` and
  `JVal.fieldsOf` convert between the two views.  JSON numbers are modelled
  as integers; no behaviour verified here depends on numeric values.
* A line of a log file is modelled by `Line`: it is `blank` when
  `line.strip()` is empty, `malformed` when `json.loads` raises, and
  `parsed fields` when it decodes to a record object.  (The script's data
  model, per its docstring and the spec, is one record object per line;
  lines decoding to non-object JSON are outside that model and are not
  represented.)
* Python dict access `d.get(k)` / `d.get(k, {})` and assignment `d[k] = v`
  are modelled by `lookupField`, `getFieldD` and `setField`; assignment
  replaces the value in place when the key is present and appends otherwise,
  matching dict insertion-order semantics.  Where the script calls `.get` on
  a value that would have to be a dict (`payload`, `meta`), the model reads
  the field chain of an object value and yields the empty field list for
  non-objects (`JVal.fieldsOf`).
* `str(x)` is modelled by `pyStr`, including the CPython `repr` formatting
  for values nested inside containers (quote selection and the common escape
  sequences; exotic non-printable escaping is not reproduced, and no claim
  depends on it).
* `json.dumps(obj, sort_keys=True)` is injective on the values modelled
  here, so the deduplication key is modelled by the canonical form
  `canonKey` that recursively sorts object fields by key (code-point order,
  as Python compares strings); equality of dump strings coincides with
  equality of canonical forms.
* File I/O is modelled by passing file contents (lists of lines) and
  directory listings explicitly (`RepairEnv`); `FileNotFoundError` handling
  is modelled with `Option` where the script catches it.
-/

/-- Code points of a Lean string literal; stands for a Python `str`. -/
def strLit (s : String) : List Nat := s.data.map Char.toNat

/-- Python `str.lower()` on one character (ASCII range, code points). -/
def lowerN (c : Nat) : Nat := if 65 ≤ c ∧ c ≤ 90 then c + 32 else c

/-- Python `str.lower()` on a whole string. -/
def lowerStr (s : List Nat) : List Nat := s.map lowerN

/-- A JSON value, as decoded by `json.loads`.  Arrays and objects are
encoded as constructor chains so that recursion stays structural. -/
inductive JVal where
  | null
  | bool (b : Bool)
  | num (n : Int)
  | str (s : List Nat)
  | arrNil
  | arrCons (hd tl : JVal)
  | objNil
  | objCons (key : List Nat) (val rest : JVal)
deriving DecidableEq

/-- A decoded top-level record: the association list of a Python dict. -/
abbrev Obj := List (List Nat × JVal)

/-- One line of a log file as the script observes it: blank after
`strip()`, unparseable (`json.loads` raises), or a decoded record. -/
inductive Line where
  | blank
  | malformed
  | parsed (fields : Obj)
deriving DecidableEq

/-- View an association list as an object value. -/
def JVal.ofFields : Obj → JVal
  | [] => .objNil
  | (k, v) :: rest => .objCons k v (JVal.ofFields rest)

/-- Field list of an object value; the empty list for non-objects.  (The
script would raise on `.get` applied to a non-dict; the claims verified
here never exercise that corner.) -/
def JVal.fieldsOf : JVal → Obj
  | .objCons k v rest => (k, v) :: JVal.fieldsOf rest
  | _ => []

/-- Python `d.get(k)`: first binding of `k`, if any. -/
def lookupField (fs : Obj) (k : List Nat) : Option JVal :=
  match fs with
  | [] => none
  | (k', v) :: rest => if k' = k then some v else lookupField rest k

/-- Python `d.get(k, default)`. -/
def getFieldD (fs : Obj) (k : List Nat) (d : JVal) : JVal :=
  match lookupField fs k with
  | some v => v
  | none => d

/-- Python `d[k] = v`: replace in place when present, append otherwise. -/
def setField (fs : Obj) (k : List Nat) (v : JVal) : Obj :=
  match fs with
  | [] => [(k, v)]
  | (k', v') :: rest =>
    if k' = k then (k, v) :: rest else (k', v') :: setField rest k v

/-- Python truthiness of a JSON value (`if x:`). -/
def JVal.truthy : JVal → Bool
  | .null => false
  | .bool b => b
  | .num n => decide (n ≠ 0)
  | .str s => decide (s ≠ [])
  | .arrNil => false
  | .arrCons _ _ => true
  | .objNil => false
  | .objCons _ _ _ => true

/-- Decimal digits of a natural number (most significant first), with
enough fuel to terminate structurally. -/
def natDigitsAux : Nat → Nat → List Nat
  | 0, _ => []
  | fuel + 1, n =>
    if n < 10 then [48 + n] else natDigitsAux fuel (n / 10) ++ [48 + n % 10]

/-- Python `str(n)` for a non-negative integer. -/
def natStr (n : Nat) : List Nat := natDigitsAux (n + 1) n

/-- Python `str(n)` for an integer. -/
def intStr (n : Int) : List Nat :=
  if n < 0 then 45 :: natStr n.natAbs else natStr n.toNat

/-- One character of CPython `repr` of a string, given the chosen quote. -/
def reprStrChar (q c : Nat) : List Nat :=
  if c = 92 then [92, 92]
  else if c = q then [92, q]
  else if c = 10 then [92, 110]
  else if c = 13 then [92, 114]
  else if c = 9 then [92, 116]
  else [c]

/-- CPython `repr` of a string: single quotes unless the string contains a
single quote and no double quote. -/
def pyReprStr (s : List Nat) : List Nat :=
  let q := if 39 ∈ s ∧ ¬(34 ∈ s) then 34 else 39
  q :: (s.map (reprStrChar q)).flatten ++ [q]

mutual

/-- CPython `repr` of a JSON value (as `str()` shows values nested inside
lists and dicts).  Code 91/93 bracket, 123/125 brace, 44/32 comma-space,
58/32 colon-space. -/
def pyRepr : JVal → List Nat
  | .null => strLit "None"
  | .bool true => strLit "True"
  | .bool false => strLit "False"
  | .num n => intStr n
  | .str s => pyReprStr s
  | .arrNil => [91, 93]
  | .arrCons h t => 91 :: (pyRepr h ++ pyReprArrRest t) ++ [93]
  | .objNil => [123, 125]
  | .objCons k v r => 123 :: (pyReprStr k ++ [58, 32] ++ pyRepr v ++ pyReprObjRest r) ++ [125]

/-- Remaining array elements, each preceded by a comma-space. -/
def pyReprArrRest : JVal → List Nat
  | .arrCons h t => [44, 32] ++ pyRepr h ++ pyReprArrRest t
  | _ => []

/-- Remaining object items, each preceded by a comma-space. -/
def pyReprObjRest : JVal → List Nat
  | .objCons k v r => [44, 32] ++ pyReprStr k ++ [58, 32] ++ pyRepr v ++ pyReprObjRest r
  | _ => []

end

/-- Python `str(x)`: the string itself for strings, `repr`-style text for
everything else. -/
def pyStr : JVal → List Nat
  | .str s => s
  | v => pyRepr v

/-- Python `raw.replace("\\", "/")` (code 92 backslash, 47 forward slash). -/
def replaceBS (s : List Nat) : List Nat :=
  s.map fun c => if c = 92 then 47 else c

/-- One iteration of the prefix-stripping loop:
`if s.lower().startswith(p.lower()): s = s[len(p):]`. -/
def stripMarker (p s : List Nat) : List Nat :=
  if (lowerStr p).isPrefixOf (lowerStr s) then s.drop p.length else s

/-- The two verbatim-path markers of the source, in loop order:
`"//?/"` and `"\\?\"` (after Python escape processing). -/
def marker1 : List Nat := [47, 47, 63, 47]

def marker2 : List Nat := [92, 92, 63, 92]

/-- Python `s.rstrip("/")`. -/
def rstripSlash (s : List Nat) : List Nat :=
  (s.reverse.dropWhile fun c => c = 47).reverse

/-- The function `normalize_cwd` from the script: forward slashes, strip verbatim
markers, strip trailing slashes, lower-case. -/
def normalize_cwd (raw : List Nat) : List Nat :=
  lowerStr (rstripSlash (stripMarker marker2 (stripMarker marker1 (replaceBS raw))))

/-- Field-name and discriminator constants of the record schema. -/
def kType : List Nat := strLit "type"

def kPayload : List Nat := strLit "payload"

def kMeta : List Nat := strLit "meta"

def kCwd : List Nat := strLit "cwd"

def kId : List Nat := strLit "id"

def tSessionMeta : List Nat := strLit "session_meta"

def tTurnContext : List Nat := strLit "turn_context"

/-- Python `obj.get("type") == t` for a string discriminator `t`. -/
def hasType (obj : Obj) (t : List Nat) : Bool :=
  decide (lookupField obj kType = some (.str t))

/-- Python `obj.get("payload", {})` as a field list. -/
def payloadOf (obj : Obj) : Obj := (getFieldD obj kPayload .objNil).fieldsOf

/-- Python `obj.get("payload", {}).get("meta", {})` as a field list. -/
def metaOf (obj : Obj) : Obj := (getFieldD (payloadOf obj) kMeta .objNil).fieldsOf

/-- Scan loop of `extract_cwd_and_id_from_jsonl` once the file is open:
blank lines are skipped; a `json.loads` failure raises out of the loop to
the function-level handler, which warns and returns `(None, None)`; the
first `session_meta` record returns its `payload.meta.cwd` / `.id`
immediately (even when those fields are absent). -/
def extractScan : List Line → Option JVal × Option JVal
  | [] => (none, none)
  | .blank :: rest => extractScan rest
  | .malformed :: _ => (none, none)
  | .parsed obj :: rest =>
    if hasType obj tSessionMeta then
      (lookupField (metaOf obj) kCwd, lookupField (metaOf obj) kId)
    else extractScan rest

/-- The function `extract_cwd_and_id_from_jsonl`; `none` for the file stands for
`FileNotFoundError`, which the script catches, returning `(None, None)`. -/
def extract_cwd_and_id_from_jsonl : Option (List Line) → Option JVal × Option JVal
  | none => (none, none)
  | some lines => extractScan lines

/-- The function `ts_prefix_from_name`: the literal `rollout-` marker followed by at
least 19 characters yields the 19-character timestamp. -/
def ts_prefix_from_name (name : List Nat) : Option (List Nat) :=
  if (strLit "rollout-").isPrefixOf name then
    let core := name.drop (strLit "rollout-").length
    if 19 ≤ core.length then some (core.take 19) else none
  else none

/-- The function `update_cwd_and_id`: overwrite the identity-bearing fields. -/
def update_cwd_and_id (obj : Obj) (newCwd newCid : JVal) : Obj :=
  if hasType obj tSessionMeta then
    let meta' := setField (setField (metaOf obj) kCwd newCwd) kId newCid
    setField obj kPayload (.ofFields (setField (payloadOf obj) kMeta (.ofFields meta')))
  else if hasType obj tTurnContext then
    setField obj kPayload (.ofFields (setField (payloadOf obj) kCwd newCwd))
  else obj

/-- The scanner's per-record cwd cue: `payload.meta.cwd` of a
`session_meta` record, `payload.cwd` of a `turn_context` record. -/
def newCwdOf (obj : Obj) : Option JVal :=
  if hasType obj tSessionMeta then
    lookupField (metaOf obj) kCwd
  else if hasType obj tTurnContext then
    lookupField (payloadOf obj) kCwd
  else none

/-- Python `if new_cwd: current_cwd = normalize_cwd(str(new_cwd))` — the context
update a record performs, when its cwd cue is truthy. -/
def ctxUpdate (obj : Obj) : Option (List Nat) :=
  match newCwdOf obj with
  | some v => if v.truthy then some (normalize_cwd (pyStr v)) else none
  | none => none

/-- Python `if current_cwd and current_cwd == target`: the context is set,
non-empty and equal to the target. -/
def matchesCtx (cur : Option (List Nat)) (target : List Nat) : Bool :=
  match cur with
  | some c => decide (c ≠ []) && decide (c = target)
  | none => false

/-- Loop of `collect_cwd_filtered_lines`, with the rolling `current_cwd`
as an explicit argument. -/
def collectAux (target : List Nat) (cur : Option (List Nat)) : List Line → List Obj
  | [] => []
  | .blank :: rest => collectAux target cur rest
  | .malformed :: rest => collectAux target cur rest
  | .parsed obj :: rest =>
    let cur' := match ctxUpdate obj with
      | some c => some c
      | none => cur
    if matchesCtx cur' target then obj :: collectAux target cur' rest
    else collectAux target cur' rest

/-- The function `collect_cwd_filtered_lines` over the backup file's lines. -/
def collect_cwd_filtered_lines (target : List Nat) (lines : List Line) : List Obj :=
  collectAux target none lines

/-- Code-point comparison of strings, the order Python `sorted` uses on
the keys that `sort_keys=True` sorts. -/
def keyLe : List Nat → List Nat → Bool
  | [], _ => true
  | _ :: _, [] => false
  | a :: as, b :: bs => if a < b then true else if b < a then false else keyLe as bs

/-- Insert a field into a key-sorted field chain (an equal key goes
first, as in a stable ascending sort). -/
def insertField (k : List Nat) (v : JVal) : JVal → JVal
  | .objCons k' v' rest =>
    if keyLe k k' then .objCons k v (.objCons k' v' rest)
    else .objCons k' v' (insertField k v rest)
  | t => .objCons k v t

/-- Canonical form of a value under `json.dumps(·, sort_keys=True)`:
object fields sorted by key at every level.  Dump strings of the values
modelled here are equal exactly when canonical forms are. -/
def canonVal : JVal → JVal
  | .arrCons h t => .arrCons (canonVal h) (canonVal t)
  | .objCons k v rest => insertField k (canonVal v) (canonVal rest)
  | v => v

/-- The dedup key `json.dumps(obj, sort_keys=True)`, via canonical form. -/
def canonKey (o : Obj) : JVal := canonVal (JVal.ofFields o)

/-- Loop of `dedup_preserve_order`, with the `seen` set explicit. -/
def dedupAux (seen : List JVal) : List Obj → List Obj
  | [] => []
  | o :: rest =>
    if canonKey o ∈ seen then dedupAux seen rest
    else o :: dedupAux (canonKey o :: seen) rest

/-- The function `dedup_preserve_order`. -/
def dedup_preserve_order (objs : List Obj) : List Obj := dedupAux [] objs

/-- The spec's reading of deduplication: keep the first occurrence of
each distinct canonical key, drop later repeats, preserve order. -/
def firstOccurrences : List Obj → List Obj
  | [] => []
  | o :: rest =>
    o :: firstOccurrences (rest.filter fun p => decide (canonKey p ≠ canonKey o))
termination_by l => l.length
decreasing_by
  simp only [List.length_cons]
  exact Nat.lt_succ_of_le (List.length_filter_le _ _)

/-- The parseable records of a sequence of lines, in order.  Also how
`process_jsonl` reparses the target's existing lines (skipping blank and
malformed ones). -/
def parsedRecords (lines : List Line) : List Obj :=
  lines.filterMap fun l => match l with
    | .parsed o => some o
    | _ => none

/-- The active context after a sequence of records, as the spec words it:
the normalized cwd of the most recent record that performs a context
update. -/
def specActive (recs : List Obj) : Option (List Nat) :=
  (recs.filterMap ctxUpdate).getLast?

/-- Spec-side scanner with the already-read records explicit: a record is
emitted when the active context of the inclusive prefix up to it is set,
non-empty and equal to the target. -/
def scannerSpecFrom (target : List Nat) (pre : List Obj) : List Line → List Obj
  | [] => []
  | .blank :: rest => scannerSpecFrom target pre rest
  | .malformed :: rest => scannerSpecFrom target pre rest
  | .parsed obj :: rest =>
    if matchesCtx (specActive (pre ++ [obj])) target then
      obj :: scannerSpecFrom target (pre ++ [obj]) rest
    else scannerSpecFrom target (pre ++ [obj]) rest

/-- Spec-side scanner over a whole backup log. -/
def scannerSpec (target : List Nat) (lines : List Line) : List Obj :=
  scannerSpecFrom target [] lines

/-- Context update under claim C1's literal reading: a session-identity
or context-switch record carrying a cwd path string always updates the
active context, empty or not. -/
def ctxUpdateClaimed (obj : Obj) : Option (List Nat) :=
  match newCwdOf obj with
  | some (.str s) => some (normalize_cwd s)
  | _ => none

/-- Active context under claim C1's literal reading. -/
def specActiveClaimed (recs : List Obj) : Option (List Nat) :=
  (recs.filterMap ctxUpdateClaimed).getLast?

/-- Scanner as claim C1 literally states it: a record is emitted exactly
when the active context at the moment it is read equals the target. -/
def scannerClaimedFrom (target : List Nat) (pre : List Obj) : List Line → List Obj
  | [] => []
  | .blank :: rest => scannerClaimedFrom target pre rest
  | .malformed :: rest => scannerClaimedFrom target pre rest
  | .parsed obj :: rest =>
    if specActiveClaimed (pre ++ [obj]) = some target then
      obj :: scannerClaimedFrom target (pre ++ [obj]) rest
    else scannerClaimedFrom target (pre ++ [obj]) rest

/-- Claim C1's literal scanner over a whole backup log. -/
def scannerClaimed (target : List Nat) (lines : List Line) : List Obj :=
  scannerClaimedFrom target [] lines

/-- Stable insertion: `x` goes before the first element it may precede. -/
def insertBy {α : Type} (le : α → α → Bool) (x : α) : List α → List α
  | [] => [x]
  | y :: ys => if le x y then x :: y :: ys else y :: insertBy le x ys

/-- Stable insertion sort by a total `le`, as Python `list.sort`. -/
def sortBy {α : Type} (le : α → α → Bool) (xs : List α) : List α :=
  xs.foldr (insertBy le) []

/-- A directory entry: file name and content lines. -/
structure DirFile where
  name : List Nat
  lines : List Line
deriving DecidableEq

/-- The file-system surroundings `process_jsonl` reads: the target file's
name and lines, and the entries of its directory in listing order. -/
structure RepairEnv where
  targetName : List Nat
  targetLines : List Line
  dirFiles : List DirFile
deriving DecidableEq

/-- Python `day_dir.glob(f"rollout-{ts_prefix}-*.mixed.bak")` on one name: the
fixed front, any (possibly empty) middle, and the fixed ending. -/
def globMatch (ts name : List Nat) : Bool :=
  let front := strLit "rollout-" ++ ts ++ [45]
  let ending := strLit ".mixed.bak"
  front.isPrefixOf name && ending.isSuffixOf name &&
    decide (front.length + ending.length ≤ name.length)

/-- Python `candidates.sort(key=lambda p: len(p.name), reverse=True)`: the
stable sort, descending by name length. -/
def sortByNameLenDesc (cs : List DirFile) : List DirFile :=
  sortBy (fun a b => decide (b.name.length ≤ a.name.length)) cs

/-- The function `process_jsonl`: the Python return value paired with the content
written back to the target, `none` when no write happens (any failure, or
dry-run). -/
def process_jsonl (env : RepairEnv) (dryRun : Bool) : Bool × Option (List Obj) :=
  match extract_cwd_and_id_from_jsonl (some env.targetLines) with
  | (some cwdV, some cidV) =>
    if cwdV.truthy && cidV.truthy then
      let targetNorm := normalize_cwd (pyStr cwdV)
      match ts_prefix_from_name env.targetName with
      | some ts =>
        match env.dirFiles.filter (fun f => globMatch ts f.name) with
        | [] => (false, none)
        | c :: cs =>
          let ordered :=
            if (c :: cs).length > 1 then sortByNameLenDesc (c :: cs) else c :: cs
          let src := ordered.headD c
          let sourceLines := collect_cwd_filtered_lines targetNorm src.lines
          if sourceLines.isEmpty then (false, none)
          else
            let rehydrated := sourceLines.map fun o => update_cwd_and_id o cwdV cidV
            let merged := dedup_preserve_order (rehydrated ++ parsedRecords env.targetLines)
            if dryRun then (true, none) else (true, some merged)
      | none => (false, none)
    else (false, none)
  | _ => (false, none)

/-- Stage-1 observer: the extracted identity is truthy. -/
def identityOk (env : RepairEnv) : Bool :=
  match extract_cwd_and_id_from_jsonl (some env.targetLines) with
  | (some cwdV, some cidV) => cwdV.truthy && cidV.truthy
  | _ => false

/-- The target's normalized cwd (empty when no cwd was extracted). -/
def targetNormOf (env : RepairEnv) : List Nat :=
  match extract_cwd_and_id_from_jsonl (some env.targetLines) with
  | (some cwdV, _) => normalize_cwd (pyStr cwdV)
  | _ => []

/-- Stage-3 observer: the candidate backups sharing the timestamp
prefix, in directory-listing order. -/
def candidatesOf (env : RepairEnv) : List DirFile :=
  match ts_prefix_from_name env.targetName with
  | some ts => env.dirFiles.filter fun f => globMatch ts f.name
  | none => []

/-- The backup the script settles on (longest name wins). -/
def chosenOf (env : RepairEnv) : Option DirFile :=
  match candidatesOf env with
  | [] => none
  | c :: cs =>
    some ((if (c :: cs).length > 1 then sortByNameLenDesc (c :: cs) else c :: cs).headD c)

/-- Stage-4 observer: the context-filtered scan of the chosen backup. -/
def filteredOf (env : RepairEnv) : List Obj :=
  match chosenOf env with
  | some f => collect_cwd_filtered_lines (targetNormOf env) f.lines
  | none => []

/-- The rehydrated source records, when the pipeline reaches them. -/
def rehydratedOf (env : RepairEnv) : List Obj :=
  match extract_cwd_and_id_from_jsonl (some env.targetLines) with
  | (some cwdV, some cidV) => (filteredOf env).map fun o => update_cwd_and_id o cwdV cidV
  | _ => []

/-- The target's pre-existing records, reparsed tolerantly. -/
def existingOf (env : RepairEnv) : List Obj := parsedRecords env.targetLines

/-- A concrete `session_meta` record: cwd `/work/proj`, id `OLD`. -/
def sampleSM : Obj :=
  [(kType, .str tSessionMeta),
   (kPayload, .objCons kMeta
     (.objCons kCwd (.str (strLit "/work/proj"))
       (.objCons kId (.str (strLit "OLD")) .objNil)) .objNil)]

/-- The target's own `session_meta` record: cwd `/work/proj`, id `T1`. -/
def sampleSMTarget : Obj :=
  [(kType, .str tSessionMeta),
   (kPayload, .objCons kMeta
     (.objCons kCwd (.str (strLit "/work/proj"))
       (.objCons kId (.str (strLit "T1")) .objNil)) .objNil)]

/-- A `session_meta` record whose cwd is the filesystem root. -/
def sampleSMRoot : Obj :=
  [(kType, .str tSessionMeta),
   (kPayload, .objCons kMeta
     (.objCons kCwd (.str (strLit "/"))
       (.objCons kId (.str (strLit "T1")) .objNil)) .objNil)]

/-- A concrete `turn_context` record: cwd `/other`. -/
def sampleTC : Obj :=
  [(kType, .str tTurnContext),
   (kPayload, .objCons kCwd (.str (strLit "/other")) .objNil)]

/-- A `turn_context` record whose cwd is the filesystem root. -/
def sampleTCRoot : Obj :=
  [(kType, .str tTurnContext),
   (kPayload, .objCons kCwd (.str (strLit "/")) .objNil)]

/-- A `turn_context` record carrying an empty cwd string. -/
def sampleTCEmpty : Obj :=
  [(kType, .str tTurnContext),
   (kPayload, .objCons kCwd (.str []) .objNil)]

/-- A data-bearing record with no cwd cue. -/
def sampleData : Obj :=
  [(kType, .str (strLit "event_msg")), (kPayload, .str (strLit "hello"))]

/-- A second data-bearing record with no cwd cue. -/
def sampleData2 : Obj :=
  [(kType, .str (strLit "event_msg")), (kPayload, .num 2)]

/-- A backup file whose first two records belong to `/work/proj` and
whose last two belong to `/other`. -/
def sampleBak : DirFile :=
  ⟨strLit "rollout-2025-01-02T03-04-05-aaaa.mixed.bak",
   [.parsed sampleSM, .parsed sampleData, .parsed sampleTC, .parsed sampleData2]⟩

/-- A second candidate backup with a strictly longer name. -/
def sampleBakLong : DirFile :=
  ⟨strLit "rollout-2025-01-02T03-04-05-aaaa-extra.mixed.bak",
   [.parsed sampleSM]⟩

/-- A directory with one target and one matching backup. -/
def sampleEnv : RepairEnv :=
  ⟨strLit "rollout-2025-01-02T03-04-05-aaaa.jsonl",
   [.parsed sampleSMTarget], [sampleBak]⟩

/-- The same directory with two matching backups of different name
lengths. -/
def sampleEnvTwo : RepairEnv :=
  ⟨strLit "rollout-2025-01-02T03-04-05-aaaa.jsonl",
   [.parsed sampleSMTarget], [sampleBak, sampleBakLong]⟩

/-- A target whose declared cwd is the filesystem root. -/
def sampleEnvRoot : RepairEnv :=
  ⟨strLit "rollout-2025-01-02T03-04-05-aaaa.jsonl",
   [.parsed sampleSMRoot], [sampleBak]⟩

/-- A line the extractor's scan passes over without returning: blank, or
a parsed record that is not a `session_meta` record. -/
def skippable : Line → Bool
  | .blank => true
  | .malformed => false
  | .parsed o => !hasType o tSessionMeta

/-- All four stages of the per-file repair succeed. -/
def stagesOk (env : RepairEnv) : Bool :=
  identityOk env && (ts_prefix_from_name env.targetName).isSome
    && !(candidatesOf env).isEmpty && !(filteredOf env).isEmpty

/-- The merged output `process_jsonl` writes on success. -/
def mergedOf (env : RepairEnv) : List Obj :=
  dedup_preserve_order (rehydratedOf env ++ existingOf env)

/-! ### Lemmas about `normalize_cwd` -/

theorem lowerN_lowerN (c : Nat) : lowerN (lowerN c) = lowerN c := by
  simp only [lowerN]
  split <;> (try split) <;> omega

theorem lowerN_eq_47_iff (c : Nat) : lowerN c = 47 ↔ c = 47 := by
  simp only [lowerN]
  split <;> omega

theorem lowerN_eq_92_iff (c : Nat) : lowerN c = 92 ↔ c = 92 := by
  simp only [lowerN]
  split <;> omega

theorem replaceBS_idem (s : List Nat) : replaceBS (replaceBS s) = replaceBS s := by
  simp only [replaceBS, List.map_map]
  congr 1
  funext c
  by_cases h : c = 92 <;> simp [Function.comp, h]

theorem lowerStr_idem (s : List Nat) : lowerStr (lowerStr s) = lowerStr s := by
  simp only [lowerStr, List.map_map]
  congr 1
  funext c
  exact lowerN_lowerN c

theorem replaceBS_lowerStr (s : List Nat) :
    replaceBS (lowerStr s) = lowerStr (replaceBS s) := by
  simp only [replaceBS, lowerStr, List.map_map]
  congr 1
  funext c
  by_cases h : c = 92
  · subst h; rfl
  · have h2 : lowerN c ≠ 92 := fun hc => h ((lowerN_eq_92_iff c).mp hc)
    simp [Function.comp, h, h2]

theorem rstripSlash_lowerStr (s : List Nat) :
    rstripSlash (lowerStr s) = lowerStr (rstripSlash s) := by
  simp only [rstripSlash, lowerStr]
  rw [← List.map_reverse, List.dropWhile_map, ← List.map_reverse]
  have hp : ((fun c => decide (c = 47)) ∘ lowerN) = (fun c : Nat => decide (c = 47)) := by
    funext c
    simp [Function.comp, lowerN_eq_47_iff]
  rw [hp]

theorem stripMarker_lowerStr (p s : List Nat) :
    stripMarker p (lowerStr s) = lowerStr (stripMarker p s) := by
  simp only [stripMarker, lowerStr_idem]
  split
  · exact (List.map_drop ..).symm
  · rfl

theorem normalize_cwd_lowerStr (p : List Nat) :
    normalize_cwd (lowerStr p) = normalize_cwd p := by
  unfold normalize_cwd
  rw [replaceBS_lowerStr, stripMarker_lowerStr, stripMarker_lowerStr,
    rstripSlash_lowerStr, lowerStr_idem]

theorem normalize_cwd_replaceBS (p : List Nat) :
    normalize_cwd (replaceBS p) = normalize_cwd p := by
  unfold normalize_cwd
  rw [replaceBS_idem]

theorem dropWhile_head?_not {p : Nat → Bool} :
    ∀ (l : List Nat) (a : Nat), (l.dropWhile p).head? = some a → p a = false := by
  intro l
  induction l with
  | nil => intro a h; simp at h
  | cons x xs ih =>
    intro a h
    by_cases hx : p x = true
    · rw [List.dropWhile_cons_of_pos hx] at h
      exact ih a h
    · rw [List.dropWhile_cons_of_neg hx] at h
      simp only [List.head?_cons, Option.some.injEq] at h
      subst h
      exact Bool.not_eq_true _ ▸ hx

theorem rstripSlash_getLast?_ne (s : List Nat) :
    (rstripSlash s).getLast? ≠ some 47 := by
  intro h
  simp only [rstripSlash, List.getLast?_reverse] at h
  have := dropWhile_head?_not (p := fun c => c = 47) s.reverse 47 h
  simp at this

theorem getLast?_lowerStr (s : List Nat) :
    (lowerStr s).getLast? = s.getLast?.map lowerN := by
  simp only [lowerStr]
  rw [← List.head?_reverse, ← List.map_reverse, List.head?_map, List.head?_reverse]

theorem normalize_cwd_getLast?_ne (p : List Nat) :
    (normalize_cwd p).getLast? ≠ some 47 := by
  unfold normalize_cwd
  rw [getLast?_lowerStr]
  intro h
  rcases Option.map_eq_some'.mp h with ⟨a, ha, hla⟩
  have ha47 : a = 47 := (lowerN_eq_47_iff a).mp hla
  subst ha47
  exact rstripSlash_getLast?_ne _ ha

theorem mem_replaceBS_ne_92 (s : List Nat) : ∀ c ∈ replaceBS s, c ≠ 92 := by
  intro c hc
  simp only [replaceBS, List.mem_map] at hc
  rcases hc with ⟨x, _, hx⟩
  subst hx
  by_cases h : x = 92 <;> simp [h]

theorem mem_stripMarker (p s : List Nat) : ∀ c ∈ stripMarker p s, c ∈ s := by
  intro c hc
  simp only [stripMarker] at hc
  split at hc
  · exact List.drop_subset _ _ hc
  · exact hc

theorem mem_rstripSlash (s : List Nat) : ∀ c ∈ rstripSlash s, c ∈ s := by
  intro c hc
  simp only [rstripSlash, List.mem_reverse] at hc
  exact List.mem_reverse.mp ((List.dropWhile_sublist _).subset hc)

theorem mem_normalize_cwd_ne_92 (p : List Nat) : ∀ c ∈ normalize_cwd p, c ≠ 92 := by
  intro c hc
  unfold normalize_cwd at hc
  simp only [lowerStr, List.mem_map] at hc
  rcases hc with ⟨x, hx, hlx⟩
  have hx92 : x ≠ 92 :=
    mem_replaceBS_ne_92 _ _ (mem_stripMarker _ _ _ (mem_stripMarker _ _ _ (mem_rstripSlash _ _ hx)))
  intro h
  subst h
  exact hx92 ((lowerN_eq_92_iff x).mp hlx)

theorem lowerStr_normalize_cwd (p : List Nat) :
    lowerStr (normalize_cwd p) = normalize_cwd p := by
  unfold normalize_cwd
  exact lowerStr_idem _

theorem replaceBS_eq_self (s : List Nat) (h : ∀ c ∈ s, c ≠ 92) : replaceBS s = s := by
  simp only [replaceBS]
  rw [List.map_congr_left fun c hc => if_neg (h c hc)]
  simp

theorem rstripSlash_eq_self (l : List Nat) (h : l.getLast? ≠ some 47) :
    rstripSlash l = l := by
  simp only [rstripSlash]
  rcases hr : l.reverse with _ | ⟨x, xs⟩
  · simpa using congrArg List.reverse hr
  · have hx : x ≠ 47 := by
      intro hx47
      apply h
      rw [← List.head?_reverse, hr, hx47]
      rfl
    rw [List.dropWhile_cons_of_neg (by simpa using hx), ← hr, List.reverse_reverse]

theorem stripMarker_eq_self_of_not_prefix (p s : List Nat)
    (h : (lowerStr p).isPrefixOf (lowerStr s) = false) : stripMarker p s = s := by
  simp only [stripMarker, h]
  rfl

theorem stripMarker2_eq_self (s : List Nat) (h92 : ∀ c ∈ s, c ≠ 92)
    (hlow : lowerStr s = s) : stripMarker marker2 s = s := by
  apply stripMarker_eq_self_of_not_prefix
  rw [hlow, show lowerStr marker2 = marker2 from by decide]
  cases hx : marker2.isPrefixOf s with
  | false => rfl
  | true =>
    exfalso
    rcases List.isPrefixOf_iff_prefix.mp hx with ⟨t, ht⟩
    apply h92 92 _ rfl
    rw [← ht]
    exact List.mem_append_left _ (by decide)

/-- Claim C4 (counterexample): `normalize_cwd` is not idempotent — a path
stacking two verbatim markers loses only one per pass, so normalizing
`//?///?/a` twice gives `a`, not `//?/a`. -/
theorem claim_c4_counterexample :
    (normalize_cwd (normalize_cwd (strLit "//?///?/a")) ==
      normalize_cwd (strLit "//?///?/a")) = false := by decide

/-- Claim C4 (amended): path normalization is idempotent on every input
whose normalized form does not itself begin with the verbatim marker
`//?/` — the stripping step removes at most one leading marker per pass,
and that is the only source of non-idempotence. -/
theorem claim_c4 (p : List Nat)
    (h : marker1.isPrefixOf (normalize_cwd p) = false) :
    normalize_cwd (normalize_cwd p) = normalize_cwd p := by
  have h92 := mem_normalize_cwd_ne_92 p
  have hlow := lowerStr_normalize_cwd p
  have hlast := normalize_cwd_getLast?_ne p
  have hm1 : (lowerStr marker1).isPrefixOf (lowerStr (normalize_cwd p)) = false := by
    rw [show lowerStr marker1 = marker1 from by decide, hlow]
    exact h
  conv_lhs => rw [normalize_cwd]
  rw [replaceBS_eq_self _ h92, stripMarker_eq_self_of_not_prefix _ _ hm1,
    stripMarker2_eq_self _ h92 hlow, rstripSlash_eq_self _ hlast, hlow]

/-- Witness: claim C4's amended statement at the concrete path
`C:\Foo\Bar`. -/
theorem claim_c4_witness :
    normalize_cwd (normalize_cwd (strLit "C:\\Foo\\Bar")) =
      normalize_cwd (strLit "C:\\Foo\\Bar") :=
  claim_c4 (strLit "C:\\Foo\\Bar") (by decide)

/-- Claim C5: normalization is separator- and case-insensitive with no
trailing separator — replacing backslashes first, or lower-casing first,
does not change the result, the normalized form never ends in a
separator, and in particular `C:\Foo\Bar` and `c:/foo/bar/` normalize
identically. -/
theorem claim_c5 :
    normalize_cwd (strLit "C:\\Foo\\Bar") = normalize_cwd (strLit "c:/foo/bar/")
    ∧ (∀ p, normalize_cwd (replaceBS p) = normalize_cwd p)
    ∧ (∀ p, normalize_cwd (lowerStr p) = normalize_cwd p)
    ∧ (∀ p, ((normalize_cwd p).getLast? == some 47) = false) :=
  ⟨by decide, normalize_cwd_replaceBS, normalize_cwd_lowerStr,
    fun p => beq_eq_false_iff_ne.mpr (normalize_cwd_getLast?_ne p)⟩

/-! ### The identity extractor (claim C3) -/

theorem extractScan_append_skippable (pre : List Line) (h : pre.all skippable = true) :
    ∀ rest, extractScan (pre ++ rest) = extractScan rest := by
  induction pre with
  | nil => intro rest; rfl
  | cons l ls ih =>
    intro rest
    simp only [List.all_cons, Bool.and_eq_true] at h
    cases l with
    | blank => simpa only [List.cons_append, extractScan] using ih h.2 rest
    | malformed => simp [skippable] at h
    | parsed o =>
      have ho : hasType o tSessionMeta = false := by
        have := h.1
        simp only [skippable, Bool.not_eq_true'] at this
        exact this
      simp only [List.cons_append, extractScan, ho, Bool.false_eq_true, if_false]
      exact ih h.2 rest

/-- Claim C3 (counterexample): a malformed line occurring before the
first session-identity record prevents it from being found — with the
malformed line the extractor returns `(None, None)` (the parse error
propagates to the function-level handler), without it the same record
yields the identity pair. -/
theorem claim_c3_counterexample :
    extractScan [.malformed, .parsed sampleSM] = (none, none)
    ∧ extractScan [.parsed sampleSM] =
        (some (.str (strLit "/work/proj")), some (.str (strLit "OLD"))) :=
  ⟨by decide, by decide⟩

/-- Claim C3 (amended): the identity extractor scans lines in order,
skipping blank lines and parsed non-identity records; it returns the
`(cwd, id)` pair from the payload identity block of the first
session-identity record, stopping immediately on success; a malformed
line encountered before the first session-identity record aborts the
scan with `(absent, absent)` (reported to the diagnostic stream); a
missing file, or a log whose lines are all blank or non-identity
records, also yields `(absent, absent)`. -/
theorem claim_c3 :
    (∀ pre obj rest, pre.all skippable = true → hasType obj tSessionMeta = true →
        extractScan (pre ++ .parsed obj :: rest) =
          (lookupField (metaOf obj) kCwd, lookupField (metaOf obj) kId))
    ∧ extract_cwd_and_id_from_jsonl none = (none, none)
    ∧ (∀ pre rest, pre.all skippable = true →
        extractScan (pre ++ .malformed :: rest) = (none, none))
    ∧ (∀ lines : List Line,
        (lines.all fun l => skippable l) = true → extractScan lines = (none, none)) := by
  refine ⟨?_, rfl, ?_, ?_⟩
  · intro pre obj rest hpre hobj
    rw [extractScan_append_skippable pre hpre]
    simp [extractScan, hobj]
  · intro pre rest hpre
    rw [extractScan_append_skippable pre hpre]
    rfl
  · intro lines h
    induction lines with
    | nil => rfl
    | cons l ls ih =>
      simp only [List.all_cons, Bool.and_eq_true] at h
      cases l with
      | blank => simpa only [extractScan] using ih h.2
      | malformed => simp [skippable] at h
      | parsed o =>
        have ho : hasType o tSessionMeta = false := by
          have := h.1
          simp only [skippable, Bool.not_eq_true'] at this
          exact this
        simp only [extractScan, ho, Bool.false_eq_true, if_false]
        exact ih h.2

/-- Witness: claim C3's amended statement at concrete logs — a blank
line and a data record are skipped, a malformed line aborts, and an
identity-free log yields the absent pair. -/
theorem claim_c3_witness :
    extractScan [.blank, .parsed sampleData, .parsed sampleSM] =
        (some (.str (strLit "/work/proj")), some (.str (strLit "OLD")))
    ∧ extractScan [.parsed sampleData, .malformed, .parsed sampleSM] = (none, none)
    ∧ extractScan [.parsed sampleData, .blank] = (none, none) :=
  ⟨(claim_c3.1 [.blank, .parsed sampleData] sampleSM [] (by decide) (by decide)).trans
      (by decide),
    claim_c3.2.2.1 [.parsed sampleData] [.parsed sampleSM] (by decide),
    claim_c3.2.2.2 [.parsed sampleData, .blank] (by decide)⟩

/-! ### The context-filtered scanner (claims C1, C10) -/

theorem specActive_append (pre : List Obj) (r : Obj) :
    specActive (pre ++ [r]) =
      match ctxUpdate r with
      | some c => some c
      | none => specActive pre := by
  simp only [specActive, List.filterMap_append]
  cases h : ctxUpdate r with
  | some c => simp [List.filterMap_cons, h]
  | none => simp [List.filterMap_cons, h]

theorem collectAux_eq_scannerSpecFrom (target : List Nat) :
    ∀ (lines : List Line) (pre : List Obj),
      collectAux target (specActive pre) lines = scannerSpecFrom target pre lines := by
  intro lines
  induction lines with
  | nil => intro pre; rfl
  | cons l ls ih =>
    intro pre
    cases l with
    | blank => simpa only [collectAux, scannerSpecFrom] using ih pre
    | malformed => simpa only [collectAux, scannerSpecFrom] using ih pre
    | parsed obj =>
      have hcur : (match ctxUpdate obj with
          | some c => some c
          | none => specActive pre) = specActive (pre ++ [obj]) :=
        (specActive_append pre obj).symm
      simp only [collectAux, scannerSpecFrom, hcur]
      simp only [ih (pre ++ [obj])]

/-- Claim C1 (counterexample): as literally stated the claim fails at the
empty normalized target.  A `turn_context` record whose cwd `/`
normalizes to the empty string makes the claim's active context equal the
empty target, so the claim's reading includes the very record that
updated the context — but the code's match test additionally requires a
non-empty current context, and returns nothing. -/
theorem claim_c1_counterexample :
    collect_cwd_filtered_lines [] [.parsed sampleTCRoot] = []
    ∧ scannerClaimed [] [.parsed sampleTCRoot] = [sampleTCRoot] :=
  ⟨by decide, by decide⟩

/-- Claim C1 (amended): for every backup log and every normalized target
path, the scanner returns exactly the parseable records whose active
context — the normalized, stringified cwd of the most recent
session-identity or context-switch record carrying a truthy (non-empty)
cwd, inherited by records without such a cwd — is non-empty and equal to
the target path at the moment the record is read, in original order; a
record that itself updates the context is included when the updated
context matches. -/
theorem claim_c1 (target : List Nat) (lines : List Line) :
    collect_cwd_filtered_lines target lines = scannerSpec target lines :=
  collectAux_eq_scannerSpecFrom target lines []

theorem matchesCtx_empty_target (cur : Option (List Nat)) : matchesCtx cur [] = false := by
  cases cur with
  | none => rfl
  | some c => cases c with
    | nil => simp [matchesCtx]
    | cons x xs => simp [matchesCtx]

theorem collectAux_empty_target : ∀ (lines : List Line) (cur : Option (List Nat)),
    collectAux [] cur lines = [] := by
  intro lines
  induction lines with
  | nil => intro cur; rfl
  | cons l ls ih =>
    intro cur
    cases l with
    | blank => simpa only [collectAux] using ih cur
    | malformed => simpa only [collectAux] using ih cur
    | parsed obj =>
      simp only [collectAux, matchesCtx_empty_target, Bool.false_eq_true, if_false]
      exact ih _

/-! ### Merge and deduplication (claims C2, C9) -/

theorem notMem_cons_decide (a x : JVal) (seen : List JVal) :
    (decide (a ∉ seen) && decide (a ≠ x)) = decide (a ∉ x :: seen) := by
  rw [← Bool.decide_and, decide_eq_decide]
  simp only [List.mem_cons, not_or]
  constructor
  · intro h
    exact ⟨h.2, h.1⟩
  · intro h
    exact ⟨h.2, h.1⟩

theorem dedupAux_eq_firstOccurrences :
    ∀ (xs : List Obj) (seen : List JVal),
      dedupAux seen xs =
        firstOccurrences (xs.filter fun o => decide (canonKey o ∉ seen)) := by
  intro xs
  induction xs with
  | nil =>
    intro seen
    rw [List.filter_nil]
    simp only [dedupAux, firstOccurrences]
  | cons o rest ih =>
    intro seen
    by_cases h : canonKey o ∈ seen
    · rw [show dedupAux seen (o :: rest) = dedupAux seen rest from by
        simp only [dedupAux, h, if_pos]]
      rw [List.filter_cons_of_neg (by simpa using h)]
      exact ih seen
    · rw [show dedupAux seen (o :: rest) = o :: dedupAux (canonKey o :: seen) rest from by
        simp only [dedupAux, h, if_neg, not_false_iff]]
      rw [List.filter_cons_of_pos (by simpa using h), firstOccurrences]
      rw [List.filter_filter]
      have hfun : ∀ p : Obj,
          (decide (canonKey p ≠ canonKey o) && decide (canonKey p ∉ seen)) =
            decide (canonKey p ∉ canonKey o :: seen) := by
        intro p
        rw [Bool.and_comm]
        exact notMem_cons_decide (canonKey p) (canonKey o) seen
      rw [List.filter_congr fun p _ => hfun p]
      rw [ih (canonKey o :: seen)]

theorem dedup_eq_firstOccurrences (objs : List Obj) :
    dedup_preserve_order objs = firstOccurrences objs := by
  have h := dedupAux_eq_firstOccurrences objs []
  simpa only [dedup_preserve_order, List.not_mem_nil, not_false_iff, decide_True,
    List.filter_true] using h

theorem firstOccurrences_sublist : ∀ xs : List Obj, List.Sublist (firstOccurrences xs) xs
  | [] => by
    simp only [firstOccurrences]
    exact List.Sublist.refl _
  | o :: rest => by
    rw [show firstOccurrences (o :: rest) =
        o :: firstOccurrences (rest.filter fun p => decide (canonKey p ≠ canonKey o)) from by
      simp only [firstOccurrences]]
    exact (((firstOccurrences_sublist _).trans (List.filter_sublist _)).cons₂ o)
termination_by xs => xs.length
decreasing_by
  simp only [List.length_cons]
  exact Nat.lt_succ_of_le (List.length_filter_le _ _)

theorem firstOccurrences_pairwise : ∀ xs : List Obj,
    (firstOccurrences xs).Pairwise fun a b => canonKey a ≠ canonKey b
  | [] => by
    simp only [firstOccurrences]
    exact List.Pairwise.nil
  | o :: rest => by
    rw [show firstOccurrences (o :: rest) =
        o :: firstOccurrences (rest.filter fun p => decide (canonKey p ≠ canonKey o)) from by
      simp only [firstOccurrences]]
    refine List.Pairwise.cons ?_ (firstOccurrences_pairwise _)
    intro b hb
    have hbf : b ∈ rest.filter fun p => decide (canonKey p ≠ canonKey o) :=
      (firstOccurrences_sublist _).subset hb
    have hd := List.of_mem_filter hbf
    intro he
    exact (of_decide_eq_true hd) he.symm
termination_by xs => xs.length
decreasing_by
  simp only [List.length_cons]
  exact Nat.lt_succ_of_le (List.length_filter_le _ _)

theorem firstOccurrences_eq_self : ∀ xs : List Obj,
    xs.Pairwise (fun a b => canonKey a ≠ canonKey b) → firstOccurrences xs = xs
  | [], _ => by simp only [firstOccurrences]
  | o :: rest, h => by
    rw [show firstOccurrences (o :: rest) =
        o :: firstOccurrences (rest.filter fun p => decide (canonKey p ≠ canonKey o)) from by
      simp only [firstOccurrences]]
    rcases List.pairwise_cons.mp h with ⟨h1, h2⟩
    have hf : (rest.filter fun p => decide (canonKey p ≠ canonKey o)) = rest := by
      apply List.filter_eq_self.mpr
      intro a ha
      exact decide_eq_true fun he => (h1 a ha) he.symm
    rw [hf, firstOccurrences_eq_self rest h2]
termination_by xs _ => xs.length
decreasing_by
  simp only [List.length_cons]
  omega

/-- Claim C9: merge is idempotent on already-merged input — merging an
already-deduplicated sequence with an empty sequence yields the same
sequence, element for element. -/
theorem claim_c9 (xs : List Obj) :
    dedup_preserve_order (dedup_preserve_order xs ++ []) = dedup_preserve_order xs := by
  rw [List.append_nil]
  simp only [dedup_eq_firstOccurrences]
  exact firstOccurrences_eq_self _ (firstOccurrences_pairwise xs)

/-! ### Per-file repair orchestration (claims C2, C7, C8, C10) -/

theorem process_jsonl_eq (env : RepairEnv) (d : Bool) :
    process_jsonl env d =
      if stagesOk env then (true, if d then none else some (mergedOf env))
      else (false, none) := by
  rcases hex : extract_cwd_and_id_from_jsonl (some env.targetLines) with ⟨cw, ci⟩
  cases cw with
  | none =>
    have hid : identityOk env = false := by simp [identityOk, hex]
    simp [process_jsonl, hex, stagesOk, hid]
  | some cwdV =>
    cases ci with
    | none =>
      have hid : identityOk env = false := by simp [identityOk, hex]
      simp [process_jsonl, hex, stagesOk, hid]
    | some cidV =>
      have hid : identityOk env = (cwdV.truthy && cidV.truthy) := by
        simp [identityOk, hex]
      have hnorm : targetNormOf env = normalize_cwd (pyStr cwdV) := by
        simp [targetNormOf, hex]
      by_cases ht : (cwdV.truthy && cidV.truthy) = true
      · cases hts : ts_prefix_from_name env.targetName with
        | none =>
          have : stagesOk env = false := by
            simp [stagesOk, hts]
          simp [process_jsonl, hex, ht, hts, this]
        | some ts =>
          cases hc : env.dirFiles.filter (fun f => globMatch ts f.name) with
          | nil =>
            have hcand : candidatesOf env = [] := by
              simp [candidatesOf, hts, hc]
            have : stagesOk env = false := by
              simp [stagesOk, hcand]
            simp [process_jsonl, hex, ht, hts, hc, this]
          | cons c cs =>
            have hcand : candidatesOf env = c :: cs := by
              simp [candidatesOf, hts, hc]
            have hchosen : chosenOf env =
                some ((if (c :: cs).length > 1 then sortByNameLenDesc (c :: cs)
                  else c :: cs).headD c) := by
              simp [chosenOf, hcand]
            have hfil : filteredOf env =
                collect_cwd_filtered_lines (normalize_cwd (pyStr cwdV))
                  ((if (c :: cs).length > 1 then sortByNameLenDesc (c :: cs)
                    else c :: cs).headD c).lines := by
              rw [filteredOf, hchosen, hnorm]
            by_cases hf : collect_cwd_filtered_lines (normalize_cwd (pyStr cwdV))
                ((if 0 < cs.length then sortByNameLenDesc (c :: cs)
                  else c :: cs).head?.getD c).lines = []
            · have hst : stagesOk env = false := by
                simp [stagesOk, hfil, hf, List.isEmpty_iff]
              rw [hst]
              simp [process_jsonl, hex, ht, hts, hc, hf, List.isEmpty_iff]
            · have hst : stagesOk env = true := by
                simp [stagesOk, hid, ht, hts, hcand, hfil, hf, List.isEmpty_iff]
              have hmerged : mergedOf env =
                  dedup_preserve_order
                    (((collect_cwd_filtered_lines (normalize_cwd (pyStr cwdV))
                        ((if (c :: cs).length > 1 then sortByNameLenDesc (c :: cs)
                          else c :: cs).headD c).lines).map
                      fun o => update_cwd_and_id o cwdV cidV) ++
                      parsedRecords env.targetLines) := by
                rw [mergedOf, rehydratedOf, hex, hfil, existingOf]
              rw [hst]
              cases d <;>
                simp [process_jsonl, hex, ht, hts, hc, hf, hmerged, List.isEmpty_iff]
      · have hid' : identityOk env = false := by
          rw [hid]
          exact Bool.not_eq_true _ ▸ ht
        have : stagesOk env = false := by
          simp [stagesOk, hid']
        simp [process_jsonl, hex, ht, this]

/-- Claim C7: per-file repair reports success exactly when every stage
succeeds — truthy identity, timestamp prefix, non-empty candidate set,
non-empty context-filtered scan — and whenever it fails, nothing is
written back to the target file. -/
theorem claim_c7 (env : RepairEnv) (d : Bool) :
    ((process_jsonl env d).1 = true ↔
      (identityOk env && (ts_prefix_from_name env.targetName).isSome
        && !(candidatesOf env).isEmpty && !(filteredOf env).isEmpty) = true)
    ∧ ((process_jsonl env d).1 = false → (process_jsonl env d).2 = none) := by
  rw [process_jsonl_eq]
  by_cases h : stagesOk env = true
  · rw [if_pos h]
    refine ⟨⟨fun _ => ?_, fun _ => rfl⟩, fun hfalse => absurd hfalse (by simp)⟩
    rwa [stagesOk] at h
  · rw [if_neg h]
    refine ⟨⟨fun htrue => absurd htrue (by simp), fun hc => ?_⟩, fun _ => rfl⟩
    exact absurd (by rwa [stagesOk]) h

/-- Witness: claim C7 at a concrete failing target (its cwd normalizes
to the empty string, so the scan stage fails and nothing is written). -/
theorem claim_c7_witness : (process_jsonl sampleEnvRoot false).2 = none :=
  (claim_c7 sampleEnvRoot false).2 (by decide)

theorem sortBy_maxHead :
    ∀ cs : List DirFile, cs ≠ [] →
      ∃ h t, sortByNameLenDesc cs = h :: t ∧ h ∈ cs ∧
        ∀ b ∈ cs, b.name.length ≤ h.name.length := by
  intro cs
  induction cs with
  | nil => intro h; exact absurd rfl h
  | cons c rest ih =>
    intro _
    cases rest with
    | nil =>
      refine ⟨c, [], rfl, by simp, ?_⟩
      intro b hb
      simp at hb
      simp [hb]
    | cons d ds =>
      obtain ⟨h, t, hsort, hmem, hbound⟩ := ih (by simp)
      have hstep : sortByNameLenDesc (c :: d :: ds) =
          insertBy (fun a b => decide (b.name.length ≤ a.name.length)) c
            (sortByNameLenDesc (d :: ds)) := rfl
      rw [hstep, hsort]
      by_cases hc : h.name.length ≤ c.name.length
      · refine ⟨c, h :: t, by simp [insertBy, hc], by simp, ?_⟩
        intro b hb
        rcases List.mem_cons.mp hb with hb | hb
        · simp [hb]
        · exact le_trans (hbound b hb) hc
      · refine ⟨h, insertBy (fun a b => decide (b.name.length ≤ a.name.length)) c t,
          by simp [insertBy, hc], by simp [List.mem_cons.mp hmem], ?_⟩
        intro b hb
        rcases List.mem_cons.mp hb with hb | hb
        · subst hb; omega
        · exact hbound b hb

/-- Claim C8: candidate selection is deterministic and favours length —
a candidate whose file name is strictly longer than every other
candidate's is always the one chosen. -/
theorem claim_c8 (env : RepairEnv) (c : DirFile)
    (hmem : c ∈ candidatesOf env)
    (hlong : ∀ b ∈ candidatesOf env, b ≠ c → b.name.length < c.name.length) :
    chosenOf env = some c := by
  rcases hcand : candidatesOf env with _ | ⟨c0, cs⟩
  · rw [hcand] at hmem
    simp at hmem
  · rw [hcand] at hmem hlong
    rw [chosenOf, hcand]
    cases cs with
    | nil =>
      simp at hmem
      simp [hmem, sortByNameLenDesc, insertBy]
    | cons c1 cs1 =>
      obtain ⟨h, t, hsort, hhmem, hbound⟩ := sortBy_maxHead (c0 :: c1 :: cs1) (by simp)
      have heq : h = c := by
        by_contra hne2
        have h1 := hlong h hhmem hne2
        have h2 := hbound c hmem
        omega
      simp [hsort, heq]

/-- Witness: claim C8 at a directory holding two candidates, the second
with the strictly longer file name. -/
theorem claim_c8_witness : chosenOf sampleEnvTwo = some sampleBakLong :=
  claim_c8 sampleEnvTwo sampleBakLong (by decide) (by decide)

/-- Claim C10: when the target's working directory normalizes to the
empty string, the scanner returns nothing from any backup log — the
empty context can be stored (a cwd of `/` stores it) but never satisfies
the match test, an empty cwd string never updates the context — and
per-file repair of such a target always fails, its scan stage returning
zero records. -/
theorem claim_c10 :
    (∀ (lines : List Line) (cur : Option (List Nat)), collectAux [] cur lines = [])
    ∧ ctxUpdate sampleTCRoot = some []
    ∧ (∀ target, matchesCtx (some []) target = false)
    ∧ (∀ obj : Obj, newCwdOf obj = some (.str []) → ctxUpdate obj = none)
    ∧ (∀ (env : RepairEnv) (d : Bool), targetNormOf env = [] →
        (process_jsonl env d).1 = false ∧ filteredOf env = []) := by
  refine ⟨collectAux_empty_target, by decide, ?_, ?_, ?_⟩
  · intro target
    simp [matchesCtx]
  · intro obj h
    simp [ctxUpdate, h, JVal.truthy]
  · intro env d hnorm
    have hfil : filteredOf env = [] := by
      rw [filteredOf]
      cases hch : chosenOf env with
      | none => rfl
      | some f =>
        rw [hnorm]
        exact collectAux_empty_target f.lines none
    refine ⟨?_, hfil⟩
    rw [process_jsonl_eq]
    have hst : stagesOk env = false := by
      simp [stagesOk, hfil]
    rw [if_neg (by simp [hst])]

/-- Witness: claim C10 at a target declaring cwd `/` — repair fails, the
scan of the sample backup is empty, and an empty cwd string performs no
context update. -/
theorem claim_c10_witness :
    (process_jsonl sampleEnvRoot true).1 = false
    ∧ collectAux [] none sampleBak.lines = []
    ∧ ctxUpdate sampleTCEmpty = none :=
  ⟨(claim_c10.2.2.2.2 sampleEnvRoot true (by decide)).1,
    claim_c10.1 sampleBak.lines none,
    claim_c10.2.2.2.1 sampleTCEmpty (by decide)⟩

/-- Claim C2: the merge concatenates rehydrated source records first and
the target's existing records second, and deduplication keeps exactly
the first occurrence of each distinct record under sorted-keys canonical
equality, preserving the order of first occurrences; in particular an
input reading `[A, B, A, C, B]` by canonical equality (the second `A`
spelled with its fields re-ordered) yields `[A, B, C]`. -/
theorem claim_c2 :
    (∀ objs : List Obj, dedup_preserve_order objs = firstOccurrences objs)
    ∧ (∀ (env : RepairEnv) (d : Bool) (out : List Obj),
        (process_jsonl env d).2 = some out →
          out = dedup_preserve_order (rehydratedOf env ++ existingOf env))
    ∧ dedup_preserve_order
        [[(strLit "a", .num 1), (strLit "b", .num 2)],
         sampleData,
         [(strLit "b", .num 2), (strLit "a", .num 1)],
         sampleTC,
         sampleData] =
      [[(strLit "a", .num 1), (strLit "b", .num 2)], sampleData, sampleTC] := by
  refine ⟨dedup_eq_firstOccurrences, ?_, by decide⟩
  intro env d out h
  rw [process_jsonl_eq] at h
  by_cases hs : stagesOk env = true
  · rw [if_pos hs] at h
    cases d with
    | true => simp at h
    | false =>
      simp only [] at h
      rw [← mergedOf]
      exact (Option.some.inj h).symm
  · rw [if_neg hs] at h
    simp at h

/-- Witness: claim C2's merge conjunct at the sample environment, whose
repair succeeds and writes the deduplicated concatenation. -/
theorem claim_c2_witness :
    [sampleSMTarget, sampleData] =
      dedup_preserve_order (rehydratedOf sampleEnv ++ existingOf sampleEnv) :=
  claim_c2.2.1 sampleEnv false [sampleSMTarget, sampleData] (by decide)

/-! ### Identity rehydration (claim C6) -/

theorem lookupField_setField_same (fs : Obj) (k : List Nat) (v : JVal) :
    lookupField (setField fs k v) k = some v := by
  induction fs with
  | nil => simp [setField, lookupField]
  | cons p rest ih =>
    rcases p with ⟨k', v'⟩
    by_cases h : k' = k
    · simp [setField, h, lookupField]
    · simp [setField, h, lookupField, ih]

theorem lookupField_setField_other (fs : Obj) (k k2 : List Nat) (v : JVal)
    (h : k2 ≠ k) : lookupField (setField fs k v) k2 = lookupField fs k2 := by
  have hks : ¬(k = k2) := fun hh => h hh.symm
  induction fs with
  | nil => simp [setField, lookupField, hks]
  | cons p rest ih =>
    rcases p with ⟨k', v'⟩
    by_cases hk : k' = k
    · subst hk
      simp [setField, lookupField, hks]
    · simp [setField, hk, lookupField, ih]

theorem fieldsOf_ofFields (l : Obj) : (JVal.ofFields l).fieldsOf = l := by
  induction l with
  | nil => rfl
  | cons p rest ih =>
    rcases p with ⟨k, v⟩
    simp [JVal.ofFields, JVal.fieldsOf, ih]

theorem payloadOf_setField_payload (obj : Obj) (X : Obj) :
    payloadOf (setField obj kPayload (.ofFields X)) = X := by
  rw [payloadOf, getFieldD]
  rw [lookupField_setField_same]
  exact fieldsOf_ofFields X

/-- Claim C6: identity rehydration only alters identity-bearing fields —
a session-identity record gets its `payload.meta.cwd` and
`payload.meta.id` set to the replacements, a context-switch record gets
its `payload.cwd` set, any other record kind is returned unchanged, and
in every case the fields other than those identity fields (at the top
level, inside the payload, and inside the identity block) are identical
before and after. -/
theorem claim_c6 (obj : Obj) (c i : JVal) :
    (hasType obj tSessionMeta = false → hasType obj tTurnContext = false →
        update_cwd_and_id obj c i = obj)
    ∧ (∀ k, k ≠ kPayload →
        lookupField (update_cwd_and_id obj c i) k = lookupField obj k)
    ∧ (hasType obj tSessionMeta = true →
        lookupField (metaOf (update_cwd_and_id obj c i)) kCwd = some c
        ∧ lookupField (metaOf (update_cwd_and_id obj c i)) kId = some i
        ∧ (∀ k, k ≠ kCwd → k ≠ kId →
            lookupField (metaOf (update_cwd_and_id obj c i)) k =
              lookupField (metaOf obj) k)
        ∧ (∀ k, k ≠ kMeta →
            lookupField (payloadOf (update_cwd_and_id obj c i)) k =
              lookupField (payloadOf obj) k))
    ∧ (hasType obj tSessionMeta = false → hasType obj tTurnContext = true →
        lookupField (payloadOf (update_cwd_and_id obj c i)) kCwd = some c
        ∧ (∀ k, k ≠ kCwd →
            lookupField (payloadOf (update_cwd_and_id obj c i)) k =
              lookupField (payloadOf obj) k)) := by
  by_cases hsm : hasType obj tSessionMeta = true
  · have hupd : update_cwd_and_id obj c i =
        setField obj kPayload (.ofFields (setField (payloadOf obj) kMeta
          (.ofFields (setField (setField (metaOf obj) kCwd c) kId i)))) := by
      rw [update_cwd_and_id, if_pos hsm]
    have hpl : payloadOf (update_cwd_and_id obj c i) =
        setField (payloadOf obj) kMeta
          (.ofFields (setField (setField (metaOf obj) kCwd c) kId i)) := by
      rw [hupd, payloadOf_setField_payload]
    have hmeta : metaOf (update_cwd_and_id obj c i) =
        setField (setField (metaOf obj) kCwd c) kId i := by
      rw [metaOf, hpl, getFieldD, lookupField_setField_same, fieldsOf_ofFields]
    refine ⟨fun hf _ => absurd hsm (by simp [hf]), ?_, ?_, fun hf _ => absurd hsm (by simp [hf])⟩
    · intro k hk
      rw [hupd, lookupField_setField_other _ _ _ _ hk]
    · intro _
      refine ⟨?_, ?_, ?_, ?_⟩
      · rw [hmeta, lookupField_setField_other _ _ _ _ (by decide),
          lookupField_setField_same]
      · rw [hmeta, lookupField_setField_same]
      · intro k hk1 hk2
        rw [hmeta, lookupField_setField_other _ _ _ _ hk2,
          lookupField_setField_other _ _ _ _ hk1]
      · intro k hk
        rw [hpl, lookupField_setField_other _ _ _ _ hk]
  · by_cases htc : hasType obj tTurnContext = true
    · have hupd : update_cwd_and_id obj c i =
          setField obj kPayload (.ofFields (setField (payloadOf obj) kCwd c)) := by
        rw [update_cwd_and_id, if_neg hsm, if_pos htc]
      have hpl : payloadOf (update_cwd_and_id obj c i) =
          setField (payloadOf obj) kCwd c := by
        rw [hupd, payloadOf_setField_payload]
      refine ⟨fun _ hf => absurd htc (by simp [hf]), ?_,
        fun hf => absurd hf (by simp [hsm]), ?_⟩
      · intro k hk
        rw [hupd, lookupField_setField_other _ _ _ _ hk]
      · intro _ _
        refine ⟨?_, ?_⟩
        · rw [hpl, lookupField_setField_same]
        · intro k hk
          rw [hpl, lookupField_setField_other _ _ _ _ hk]
    · have hupd : update_cwd_and_id obj c i = obj := by
        rw [update_cwd_and_id, if_neg hsm, if_neg htc]
      refine ⟨fun _ _ => hupd, ?_, fun hf => absurd hf hsm, fun _ hf => absurd hf htc⟩
      intro k _
      rw [hupd]

/-- Witness: claim C6 at concrete records — a data record is unchanged,
a session-identity record receives the replacement cwd and id, a
context-switch record receives the replacement cwd. -/
theorem claim_c6_witness :
    update_cwd_and_id sampleData (.str (strLit "/x")) (.str (strLit "y")) = sampleData
    ∧ lookupField (metaOf (update_cwd_and_id sampleSM (.str (strLit "/work/proj"))
        (.str (strLit "T1")))) kCwd = some (.str (strLit "/work/proj"))
    ∧ lookupField (payloadOf (update_cwd_and_id sampleTC (.str (strLit "/w"))
        (.str (strLit "z")))) kCwd = some (.str (strLit "/w")) :=
  ⟨(claim_c6 sampleData (.str (strLit "/x")) (.str (strLit "y"))).1 (by decide) (by decide),
    ((claim_c6 sampleSM (.str (strLit "/work/proj")) (.str (strLit "T1"))).2.2.1
      (by decide)).1,
    ((claim_c6 sampleTC (.str (strLit "/w")) (.str (strLit "z"))).2.2.2
      (by decide) (by decide)).1⟩
